import Mathlib

/-!
Verification of the kbmd knowledgebase tool (src/kbmd).

This file shallowly embeds the data model (`kbmd/models.py`), the index
builder and render orchestration (`kbmd/subcommands/build.py`) and the slug
generator (`kbmd/subcommands/add.py`).  Pure Python functions become Lean
functions; the filesystem-backed record store becomes an explicit state
record (`KbState`), with every file write modeled by an explicit
create-or-replace operation on a name-addressed list; pydantic validation
becomes `Except ValidationError`.

Serialization (`model_dump_json`) and deserialization (`Model(**json.loads(s))`)
are modeled over a `Json` value tree.  ISO-8601 rendering/parsing of
`datetime`/`date` values is performed by the excluded JSON/pydantic
primitives (the spec scopes out "JSON read/write primitives"); since that
textual rendering is injective and round-trips, timestamp values are carried
as atomic `Json` leaves (`Json.dtime`, `Json.date`).
-/

/-- A calendar date-time value (`datetime.datetime`); the textual ISO form is
handled by the excluded serialization primitives, so only the componentwise
value matters here. -/
structure DateTime where
  year : Nat
  month : Nat
  day : Nat
  hour : Nat
  minute : Nat
  second : Nat
  microsecond : Nat
deriving DecidableEq

/-- A calendar date value (`datetime.date`). -/
structure Date where
  year : Nat
  month : Nat
  day : Nat
deriving DecidableEq

/-- JSON value tree as read/written by `json.loads` / `model_dump_json`.
Timestamps appear as atomic leaves (see the file header). -/
inductive Json where
  | null : Json
  | str : String → Json
  | num : Int → Json
  | arr : List Json → Json
  | obj : List (String × Json) → Json
  | dtime : DateTime → Json
  | date : Date → Json

/-- A pydantic `ValidationError`, carrying the field (or shape) that failed. -/
structure ValidationError where
  field : String
deriving DecidableEq

/-- Model of `ProjectStatus` enum from `models.py` (values: active/completed/on_hold/archived). -/
inductive ProjectStatus where
  | active | completed | on_hold | archived
deriving DecidableEq

/-- Model of `CollaboratorRole` enum from `models.py`. -/
inductive CollaboratorRole where
  | pi | researcher | student | technician | collaborator
deriving DecidableEq

/-- Model of `RelatedProject` model. -/
structure RelatedProject where
  name : String
  slug : String
  description : Option String := none
deriving DecidableEq

/-- Model of `RelatedDataset` model. -/
structure RelatedDataset where
  name : String
  slug : String
  description : Option String := none
deriving DecidableEq

/-- Model of `Script` model. -/
structure Script where
  path : String
  description : String
  language : Option String := none
deriving DecidableEq

/-- Model of `Collaborator` model. -/
structure Collaborator where
  name : String
  role : CollaboratorRole
  email : Option String := none
  affiliation : Option String := none
deriving DecidableEq

/-- Model of `Publication` model. -/
structure Publication where
  title : String
  journal : String
  year : Int
  doi : Option String := none
  url : Option String := none
deriving DecidableEq

/-- Model of `DatasetMetadata` model (fields in declaration order, as serialized). -/
structure DatasetMetadata where
  name : String
  slug : String
  path : String
  description : String
  size : String
  size_bytes : Option Int := none
  file_type : String
  file_count : Option Int := none
  compression : Option String := none
  data_source : String
  last_modified : DateTime
  date_added : DateTime
  related_projects : List RelatedProject := []
  access_notes : Option String := none
  tags : List String := []
deriving DecidableEq

/-- Model of `ProjectMetadata` model (fields in declaration order, as serialized). -/
structure ProjectMetadata where
  name : String
  slug : String
  path : String
  description : String
  objectives : String
  status : ProjectStatus
  date_started : Date
  date_completed : Option Date := none
  date_added : DateTime
  principal_investigator : String
  collaborators : List Collaborator := []
  datasets : List RelatedDataset := []
  scripts : List Script := []
  results_path : Option String := none
  results_description : Option String := none
  publications : List Publication := []
  tags : List String := []
deriving DecidableEq

/-- Model of `IndexEntry` model. -/
structure IndexEntry where
  name : String
  link : String
  description : Option String := none
  category : Option String := none
deriving DecidableEq

/-- Model of `IndexCategory` model. -/
structure IndexCategory where
  category : String
  entries : List IndexEntry
deriving DecidableEq

/-- Model of `IndexMetadata` model. -/
structure IndexMetadata where
  title : String
  description : String
  entries : List IndexCategory := []
  last_updated : DateTime
deriving DecidableEq

/-! ## Serialization (pydantic `model_dump_json`)

Each model serializes to a JSON object listing every field in declaration
order; `None` becomes `null`, enums serialize as their string value. -/

/-- Serialize an optional string field (`None` → `null`). -/
def Json.ostr : Option String → Json
  | some s => .str s
  | none => .null

/-- Serialize an optional integer field (`None` → `null`). -/
def Json.oint : Option Int → Json
  | some n => .num n
  | none => .null

/-- Serialize an optional date field (`None` → `null`). -/
def Json.odate : Option Date → Json
  | some d => .date d
  | none => .null

/-- Model of `ProjectStatus` serializes as its string value. -/
def statusValue : ProjectStatus → String
  | .active => "active"
  | .completed => "completed"
  | .on_hold => "on_hold"
  | .archived => "archived"

/-- Model of `CollaboratorRole` serializes as its string value. -/
def roleValue : CollaboratorRole → String
  | .pi => "Principal Investigator"
  | .researcher => "Researcher"
  | .student => "Student"
  | .technician => "Technician"
  | .collaborator => "Collaborator"

def serializeRelatedProject (r : RelatedProject) : Json :=
  .obj [("name", .str r.name), ("slug", .str r.slug), ("description", .ostr r.description)]

def serializeRelatedDataset (r : RelatedDataset) : Json :=
  .obj [("name", .str r.name), ("slug", .str r.slug), ("description", .ostr r.description)]

def serializeScript (s : Script) : Json :=
  .obj [("path", .str s.path), ("description", .str s.description),
        ("language", .ostr s.language)]

def serializeCollaborator (c : Collaborator) : Json :=
  .obj [("name", .str c.name), ("role", .str (roleValue c.role)),
        ("email", .ostr c.email), ("affiliation", .ostr c.affiliation)]

def serializePublication (p : Publication) : Json :=
  .obj [("title", .str p.title), ("journal", .str p.journal), ("year", .num p.year),
        ("doi", .ostr p.doi), ("url", .ostr p.url)]

def serializeDataset (d : DatasetMetadata) : Json :=
  .obj [("name", .str d.name), ("slug", .str d.slug), ("path", .str d.path),
        ("description", .str d.description), ("size", .str d.size),
        ("size_bytes", .oint d.size_bytes), ("file_type", .str d.file_type),
        ("file_count", .oint d.file_count), ("compression", .ostr d.compression),
        ("data_source", .str d.data_source), ("last_modified", .dtime d.last_modified),
        ("date_added", .dtime d.date_added),
        ("related_projects", .arr (d.related_projects.map serializeRelatedProject)),
        ("access_notes", .ostr d.access_notes),
        ("tags", .arr (d.tags.map Json.str))]

def serializeProject (p : ProjectMetadata) : Json :=
  .obj [("name", .str p.name), ("slug", .str p.slug), ("path", .str p.path),
        ("description", .str p.description), ("objectives", .str p.objectives),
        ("status", .str (statusValue p.status)), ("date_started", .date p.date_started),
        ("date_completed", .odate p.date_completed), ("date_added", .dtime p.date_added),
        ("principal_investigator", .str p.principal_investigator),
        ("collaborators", .arr (p.collaborators.map serializeCollaborator)),
        ("datasets", .arr (p.datasets.map serializeRelatedDataset)),
        ("scripts", .arr (p.scripts.map serializeScript)),
        ("results_path", .ostr p.results_path),
        ("results_description", .ostr p.results_description),
        ("publications", .arr (p.publications.map serializePublication)),
        ("tags", .arr (p.tags.map Json.str))]

def serializeIndexEntry (e : IndexEntry) : Json :=
  .obj [("name", .str e.name), ("link", .str e.link),
        ("description", .ostr e.description), ("category", .ostr e.category)]

def serializeIndexCategory (c : IndexCategory) : Json :=
  .obj [("category", .str c.category),
        ("entries", .arr (c.entries.map serializeIndexEntry))]

def serializeIndex (i : IndexMetadata) : Json :=
  .obj [("title", .str i.title), ("description", .str i.description),
        ("entries", .arr (i.entries.map serializeIndexCategory)),
        ("last_updated", .dtime i.last_updated)]

/-! ## Deserialization (pydantic model construction from `json.loads` output)

Construction fails with a `ValidationError` when a required field is absent
or has the wrong shape, or when an enum value is not a member of its
enumeration.  Unknown extra fields are ignored (pydantic default).  Fields
with a default are filled in when absent; `date_added` defaults to the
creation time, passed in as `now`. -/

/-- Field lookup in a JSON object (first occurrence wins, as in a dict). -/
def findField (key : String) : List (String × Json) → Option Json
  | [] => none
  | (k, v) :: rest => if k = key then some v else findField key rest

def reqStrField (fields : List (String × Json)) (key : String) :
    Except ValidationError String :=
  match findField key fields with
  | some (.str s) => .ok s
  | _ => .error ⟨key⟩

def optStrField (fields : List (String × Json)) (key : String) :
    Except ValidationError (Option String) :=
  match findField key fields with
  | none => .ok none
  | some .null => .ok none
  | some (.str s) => .ok (some s)
  | some _ => .error ⟨key⟩

def optIntField (fields : List (String × Json)) (key : String) :
    Except ValidationError (Option Int) :=
  match findField key fields with
  | none => .ok none
  | some .null => .ok none
  | some (.num n) => .ok (some n)
  | some _ => .error ⟨key⟩

def reqIntField (fields : List (String × Json)) (key : String) :
    Except ValidationError Int :=
  match findField key fields with
  | some (.num n) => .ok n
  | _ => .error ⟨key⟩

def reqDTimeField (fields : List (String × Json)) (key : String) :
    Except ValidationError DateTime :=
  match findField key fields with
  | some (.dtime t) => .ok t
  | _ => .error ⟨key⟩

/-- A datetime field with `default_factory=datetime.now`: absent means `now`. -/
def defDTimeField (fields : List (String × Json)) (key : String) (now : DateTime) :
    Except ValidationError DateTime :=
  match findField key fields with
  | none => .ok now
  | some (.dtime t) => .ok t
  | some _ => .error ⟨key⟩

def reqDateField (fields : List (String × Json)) (key : String) :
    Except ValidationError Date :=
  match findField key fields with
  | some (.date d) => .ok d
  | _ => .error ⟨key⟩

def optDateField (fields : List (String × Json)) (key : String) :
    Except ValidationError (Option Date) :=
  match findField key fields with
  | none => .ok none
  | some .null => .ok none
  | some (.date d) => .ok (some d)
  | some _ => .error ⟨key⟩

/-- A list-valued field with `default_factory=list`: absent means `[]`. -/
def listField (fields : List (String × Json)) (key : String)
    (pe : Json → Except ValidationError α) : Except ValidationError (List α) :=
  match findField key fields with
  | none => .ok []
  | some (.arr xs) => xs.mapM pe
  | some _ => .error ⟨key⟩

def parseStr : Json → Except ValidationError String
  | .str s => .ok s
  | _ => .error ⟨"str"⟩

def parseStatusVal : Json → Except ValidationError ProjectStatus
  | .str "active" => .ok .active
  | .str "completed" => .ok .completed
  | .str "on_hold" => .ok .on_hold
  | .str "archived" => .ok .archived
  | _ => .error ⟨"status"⟩

def parseStatus (fields : List (String × Json)) : Except ValidationError ProjectStatus :=
  match findField "status" fields with
  | some v => parseStatusVal v
  | none => .error ⟨"status"⟩

def parseRole : Json → Except ValidationError CollaboratorRole
  | .str "Principal Investigator" => .ok .pi
  | .str "Researcher" => .ok .researcher
  | .str "Student" => .ok .student
  | .str "Technician" => .ok .technician
  | .str "Collaborator" => .ok .collaborator
  | _ => .error ⟨"role"⟩

def parseRelatedProject : Json → Except ValidationError RelatedProject
  | .obj fields => do
      let name ← reqStrField fields "name"
      let slug ← reqStrField fields "slug"
      let description ← optStrField fields "description"
      .ok { name, slug, description }
  | _ => .error ⟨"RelatedProject"⟩

def parseRelatedDataset : Json → Except ValidationError RelatedDataset
  | .obj fields => do
      let name ← reqStrField fields "name"
      let slug ← reqStrField fields "slug"
      let description ← optStrField fields "description"
      .ok { name, slug, description }
  | _ => .error ⟨"RelatedDataset"⟩

def parseScript : Json → Except ValidationError Script
  | .obj fields => do
      let path ← reqStrField fields "path"
      let description ← reqStrField fields "description"
      let language ← optStrField fields "language"
      .ok { path, description, language }
  | _ => .error ⟨"Script"⟩

def parseCollaborator : Json → Except ValidationError Collaborator
  | .obj fields => do
      let name ← reqStrField fields "name"
      let role ← match findField "role" fields with
        | some v => parseRole v
        | none => .error ⟨"role"⟩
      let email ← optStrField fields "email"
      let affiliation ← optStrField fields "affiliation"
      .ok { name, role, email, affiliation }
  | _ => .error ⟨"Collaborator"⟩

def parsePublication : Json → Except ValidationError Publication
  | .obj fields => do
      let title ← reqStrField fields "title"
      let journal ← reqStrField fields "journal"
      let year ← reqIntField fields "year"
      let doi ← optStrField fields "doi"
      let url ← optStrField fields "url"
      .ok { title, journal, year, doi, url }
  | _ => .error ⟨"Publication"⟩

def parseDataset (now : DateTime) : Json → Except ValidationError DatasetMetadata
  | .obj fields => do
      let name ← reqStrField fields "name"
      let slug ← reqStrField fields "slug"
      let path ← reqStrField fields "path"
      let description ← reqStrField fields "description"
      let size ← reqStrField fields "size"
      let size_bytes ← optIntField fields "size_bytes"
      let file_type ← reqStrField fields "file_type"
      let file_count ← optIntField fields "file_count"
      let compression ← optStrField fields "compression"
      let data_source ← reqStrField fields "data_source"
      let last_modified ← reqDTimeField fields "last_modified"
      let date_added ← defDTimeField fields "date_added" now
      let related_projects ← listField fields "related_projects" parseRelatedProject
      let access_notes ← optStrField fields "access_notes"
      let tags ← listField fields "tags" parseStr
      .ok { name, slug, path, description, size, size_bytes, file_type, file_count,
            compression, data_source, last_modified, date_added, related_projects,
            access_notes, tags }
  | _ => .error ⟨"DatasetMetadata"⟩

def parseProject (now : DateTime) : Json → Except ValidationError ProjectMetadata
  | .obj fields => do
      let name ← reqStrField fields "name"
      let slug ← reqStrField fields "slug"
      let path ← reqStrField fields "path"
      let description ← reqStrField fields "description"
      let objectives ← reqStrField fields "objectives"
      let status ← parseStatus fields
      let date_started ← reqDateField fields "date_started"
      let date_completed ← optDateField fields "date_completed"
      let date_added ← defDTimeField fields "date_added" now
      let principal_investigator ← reqStrField fields "principal_investigator"
      let collaborators ← listField fields "collaborators" parseCollaborator
      let datasets ← listField fields "datasets" parseRelatedDataset
      let scripts ← listField fields "scripts" parseScript
      let results_path ← optStrField fields "results_path"
      let results_description ← optStrField fields "results_description"
      let publications ← listField fields "publications" parsePublication
      let tags ← listField fields "tags" parseStr
      .ok { name, slug, path, description, objectives, status, date_started,
            date_completed, date_added, principal_investigator, collaborators,
            datasets, scripts, results_path, results_description, publications, tags }
  | _ => .error ⟨"ProjectMetadata"⟩

def parseIndexEntry : Json → Except ValidationError IndexEntry
  | .obj fields => do
      let name ← reqStrField fields "name"
      let link ← reqStrField fields "link"
      let description ← optStrField fields "description"
      let category ← optStrField fields "category"
      .ok { name, link, description, category }
  | _ => .error ⟨"IndexEntry"⟩

def parseIndexCategory : Json → Except ValidationError IndexCategory
  | .obj fields => do
      let category ← reqStrField fields "category"
      let entries ← match findField "entries" fields with
        | some (.arr xs) => xs.mapM parseIndexEntry
        | _ => .error ⟨"entries"⟩
      .ok { category, entries }
  | _ => .error ⟨"IndexCategory"⟩

def parseIndex (now : DateTime) : Json → Except ValidationError IndexMetadata
  | .obj fields => do
      let title ← reqStrField fields "title"
      let description ← reqStrField fields "description"
      let entries ← listField fields "entries" parseIndexCategory
      let last_updated ← defDTimeField fields "last_updated" now
      .ok { title, description, entries, last_updated }
  | _ => .error ⟨"IndexMetadata"⟩

/-! ## Slug generation (`add.py::_generate_slug`)

```python
slug = name.lower().strip()
slug = re.sub(r"[^a-z0-9\s-]", "", slug)
slug = re.sub(r"[\s-]+", "-", slug)
slug = slug.strip("-")
```
`lower` is modeled per character on the ASCII range; characters outside
`[a-z0-9\s-]` are removed by the following substitution either way, so the
claimed shape properties do not depend on the exact Unicode lowering. -/

/-- Per-character model of `str.lower` (ASCII range). -/
def pyLowerChar (c : Char) : Char :=
  if 'A' ≤ c ∧ c ≤ 'Z' then Char.ofNat (c.toNat + 32) else c

/-- Whitespace as matched by `\s` / stripped by `str.strip()`. -/
def isPySpace (c : Char) : Bool :=
  c = ' ' || c = '\t' || c = '\n' || c = '\r' || c = '\x0b' || c = '\x0c'

/-- Characters kept by `re.sub(r"[^a-z0-9\s-]", "", ...)`. -/
def keepChar (c : Char) : Bool :=
  ('a' ≤ c && c ≤ 'z') || ('0' ≤ c && c ≤ '9') || isPySpace c || c = '-'

/-- The class `[\s-]` collapsed by `re.sub(r"[\s-]+", "-", ...)`. -/
def isSep (c : Char) : Bool :=
  isPySpace c || c = '-'

/-- A character allowed in a finished slug: lowercase ASCII letter, digit,
or hyphen. -/
def isSlugChar (c : Char) : Bool :=
  ('a' ≤ c && c ≤ 'z') || ('0' ≤ c && c ≤ '9') || c = '-'

/-- Model of `re.sub(r"[\s-]+", "-", ...)`: each maximal run of separator characters
becomes a single hyphen.  The flag records whether the previous character was
part of a separator run whose hyphen has already been emitted. -/
def collapseSeps : Bool → List Char → List Char
  | _, [] => []
  | prevSep, c :: rest =>
    if isSep c then
      if prevSep then collapseSeps true rest
      else '-' :: collapseSeps true rest
    else c :: collapseSeps false rest

/-- Remove the matching characters from the end of a list (`str.strip` tail). -/
def dropTrailing (p : Char → Bool) (l : List Char) : List Char :=
  (l.reverse.dropWhile p).reverse

/-- Model of `str.strip(chars)`: remove matching characters from both ends. -/
def pyStrip (p : Char → Bool) (l : List Char) : List Char :=
  dropTrailing p (l.dropWhile p)

/-- Model of `add.py::_generate_slug`. -/
def _generate_slug (name : String) : String :=
  let s := name.data.map pyLowerChar
  let s := pyStrip isPySpace s
  let s := s.filter keepChar
  let s := collapseSeps false s
  let s := pyStrip (fun c => c = '-') s
  String.mk s

/-! ## Index building (`build.py`)

`_update_filesystem_index` (lines 138-204) and `_update_topic_index`
(lines 207-249): group records by a derived key into a dict of lists,
then emit `IndexCategory` values sorted by `sorted(groups.items())`. -/

/-- Split a character list on `/` (the segments of `p.split("/")`). -/
def splitSlashAux : List Char → List Char → List (List Char)
  | [], cur => [cur.reverse]
  | c :: rest, cur =>
    if c = '/' then cur.reverse :: splitSlashAux rest []
    else splitSlashAux rest (c :: cur)

/-- Model of `pathlib.Path(p).parts` for a POSIX path: split on `/`, drop empty and
`.` segments, and for an absolute path the root `/` is the first element.
(The POSIX double-slash root quirk of pathlib is not modeled; no claim
involves it.) -/
def pathParts (p : String) : List String :=
  let segs := ((splitSlashAux p.data []).map String.mk).filter
    (fun s => s ≠ "" && s ≠ ".")
  if p.data.head? = some '/' then "/" :: segs else segs

/-- Model of `build.py` lines 152-153 / 174-175:
`fs_root = f"/{path_parts[1]}" if len(path_parts) > 1 else "/"`. -/
def fsRoot (path : String) : String :=
  let parts := pathParts path
  if parts.length > 1 then "/" ++ parts.getD 1 "" else "/"

/-- The `IndexEntry` built for a dataset (`build.py` lines 158-166),
including the 100-character description truncation. -/
def datasetIndexEntry (d : DatasetMetadata) : IndexEntry :=
  { name := d.name,
    link := "../datasets/" ++ d.slug ++ ".md",
    description := some (if d.description.length > 100
      then d.description.take 100 ++ "..." else d.description),
    category := none }

/-- The `IndexEntry` built for a project; lines 181-187 (filesystem index)
and lines 226-231 (topic index) construct identical entries. -/
def projectIndexEntry (p : ProjectMetadata) : IndexEntry :=
  { name := p.name,
    link := "../projects/" ++ p.slug ++ ".md",
    description := some (if p.description.length > 100
      then p.description.take 100 ++ "..." else p.description),
    category := none }

/-- Model of `groups[key].append(e)`, creating `groups[key] = []` first when absent:
the association list keeps dict insertion order. -/
def addEntry (groups : List (String × List IndexEntry)) (key : String)
    (e : IndexEntry) : List (String × List IndexEntry) :=
  match groups with
  | [] => [(key, [e])]
  | (k, es) :: rest =>
    if k = key then (k, es ++ [e]) :: rest
    else (k, es) :: addEntry rest key e

/-- Lookup of a key's entry list in the grouping dict. -/
def findGroup (key : String) : List (String × List IndexEntry) → Option (List IndexEntry)
  | [] => none
  | (k, es) :: rest => if k = key then some es else findGroup key rest

/-- Order used by `sorted(groups.items())`: Python compares the tuples
lexicographically, and since dict keys are distinct the comparison is
decided by the key (code-point lexicographic order, as for Lean strings). -/
def keyLe (a b : String × List IndexEntry) : Prop := a.1 ≤ b.1

instance : DecidableRel keyLe :=
  fun a b => inferInstanceAs (Decidable (a.1 ≤ b.1))

instance : IsTotal (String × List IndexEntry) keyLe :=
  ⟨fun a b => le_total a.1 b.1⟩

instance : IsTrans (String × List IndexEntry) keyLe :=
  ⟨fun a b c h1 h2 => le_trans h1 h2⟩

/-- Model of `sorted(groups.items())` (a stable sort; stability is irrelevant on the
distinct keys). -/
def sortGroups (groups : List (String × List IndexEntry)) :
    List (String × List IndexEntry) :=
  List.insertionSort keyLe groups

/-- The pure core of `_update_filesystem_index` over already-validated
records: datasets first, then projects, grouped by `fsRoot` of their `path`;
`now` is the `datetime.now()` supplying pydantic's `last_updated` default. -/
def updateFilesystemIndex (now : DateTime) (ds : List DatasetMetadata)
    (ps : List ProjectMetadata) : IndexMetadata :=
  let groups := ds.foldl (fun g d => addEntry g (fsRoot d.path) (datasetIndexEntry d)) []
  let groups := ps.foldl (fun g p => addEntry g (fsRoot p.path) (projectIndexEntry p)) groups
  { title := "Browse by Filesystem Location",
    description := "Datasets and projects organized by their location on different filesystems",
    entries := (sortGroups groups).map (fun kv => { category := kv.1, entries := kv.2 }),
    last_updated := now }

/-- Model of `topics = project.tags if project.tags else ["Untagged"]`. -/
def topicsOf (p : ProjectMetadata) : List String :=
  if p.tags.isEmpty then ["Untagged"] else p.tags

/-- The pure core of `_update_topic_index` over already-validated projects. -/
def updateTopicIndex (now : DateTime) (ps : List ProjectMetadata) : IndexMetadata :=
  let groups := ps.foldl
    (fun g p => (topicsOf p).foldl (fun g t => addEntry g t (projectIndexEntry p)) g) []
  { title := "Browse by Research Topic",
    description := "Projects organized by research topic and domain",
    entries := (sortGroups groups).map (fun kv => { category := kv.1, entries := kv.2 }),
    last_updated := now }

/-! ## The record store and the build pipeline (`build.py::build_kb`)

The `.kbmd` tree is modeled as an explicit state; each directory is a
name-addressed list of files.  Rendered markdown is opaque (the template
engine is out of scope), so a generated page is identified by its template
kind and bound variables. -/

/-- A rendered output document: template kind plus the bound record and the
injected generation timestamp. -/
inductive Doc where
  | datasetPage (d : DatasetMetadata) (generatedDate : DateTime)
  | projectPage (p : ProjectMetadata) (generatedDate : DateTime)
  | indexPage (i : IndexMetadata) (generatedDate : DateTime)
  | rootPage (projectName : Json)

/-- The `.kbmd` tree.  `datasets`/`projects`/`indices` are the record-store
partitions (file stem ↦ parsed JSON content); `config` is the parsed
`config.json` object when present; the `generated*` fields are the output
tree. -/
structure KbState where
  config : Option (List (String × Json))
  datasets : List (String × Json)
  projects : List (String × Json)
  indices : List (String × Json)
  generatedDatasets : List (String × Doc)
  generatedProjects : List (String × Doc)
  generatedIndices : List (String × Doc)
  generatedReadme : Option Doc

/-- Create-or-replace a file in a directory listing. -/
def writeFile {α : Type} (files : List (String × α)) (name : String) (content : α) :
    List (String × α) :=
  match files with
  | [] => [(name, content)]
  | (n, c) :: rest =>
    if n = name then (n, content) :: rest
    else (n, c) :: writeFile rest name content

/-- An observable file write performed by a build, in program order. -/
inductive BuildEvent where
  | writeDatasetPage (slug : String)
  | writeProjectPage (slug : String)
  | writeIndexRecord (stem : String)
  | writeIndexPage (stem : String)
  | writeReadme
deriving DecidableEq

/-- Per-partition document counts reported by the build. -/
structure BuildCounts where
  datasets : Nat
  projects : Nat
  indices : Nat
deriving DecidableEq

/-- Model of `build_kb` (`build.py` lines 19-49): renders dataset pages, then project
pages, then updates both index records (`_update_indices`), then renders
index pages, then the root README.  Validation failures abort with the
pydantic `ValidationError`.  `_update_indices` re-reads the record files;
those re-parses are the same pure computations that just succeeded, so the
parsed values are reused.  Page writes of a partition are modeled after the
whole partition validated; in the source the writes of already-validated
records interleave with the parsing loop, which is observably different
only in the generated partition of a failing run (claimed by nothing). -/
def buildKb (now : DateTime) (cwdName : String) (st : KbState) :
    Except ValidationError (BuildCounts × KbState × List BuildEvent) :=
  match st.datasets.mapM (fun f => parseDataset now f.2) with
  | .error e => .error e
  | .ok ds =>
    match st.projects.mapM (fun f => parseProject now f.2) with
    | .error e => .error e
    | .ok ps =>
      let genDs := ds.map (fun d => (d.slug ++ ".md", Doc.datasetPage d now))
      let genPs := ps.map (fun p => (p.slug ++ ".md", Doc.projectPage p now))
      let fsIdx := updateFilesystemIndex now ds ps
      let tIdx := updateTopicIndex now ps
      let indices1 :=
        writeFile (writeFile st.indices "by-filesystem" (serializeIndex fsIdx))
          "by-topic" (serializeIndex tIdx)
      match indices1.mapM (fun f => parseIndex now f.2) with
      | .error e => .error e
      | .ok idxs =>
        let genIdx := (indices1.zip idxs).map
          (fun fi => (fi.1.1 ++ ".md", Doc.indexPage fi.2 now))
        let readmeName : Json :=
          match st.config with
          | none => Json.str cwdName
          | some cfg =>
            match findField "name" cfg with
            | some v => v
            | none => Json.str cwdName
        .ok ({ datasets := genDs.length, projects := genPs.length,
               indices := genIdx.length },
          { st with
            indices := indices1,
            generatedDatasets :=
              genDs.foldl (fun acc nd => writeFile acc nd.1 nd.2) st.generatedDatasets,
            generatedProjects :=
              genPs.foldl (fun acc nd => writeFile acc nd.1 nd.2) st.generatedProjects,
            generatedIndices :=
              genIdx.foldl (fun acc nd => writeFile acc nd.1 nd.2) st.generatedIndices,
            generatedReadme := some (Doc.rootPage readmeName) },
          (ds.map (fun d => BuildEvent.writeDatasetPage d.slug)) ++
          (ps.map (fun p => BuildEvent.writeProjectPage p.slug)) ++
          [BuildEvent.writeIndexRecord "by-filesystem",
           BuildEvent.writeIndexRecord "by-topic"] ++
          (indices1.map (fun f => BuildEvent.writeIndexPage f.1)) ++
          [BuildEvent.writeReadme])

/-- The state of the `.kbmd` tree after a build attempt: on a validation
error the exception propagates and the store keeps its prior state. -/
def buildKbFinal (now : DateTime) (cwdName : String) (st : KbState) : KbState :=
  match buildKb now cwdName st with
  | .ok (_, st', _) => st'
  | .error _ => st

/-- Model of `_update_filesystem_index` (lines 138-204) as a state transformer:
read and validate every dataset and project record, then write the complete
replacement index record; a validation failure aborts before the write. -/
def updateFilesystemIndexRun (now : DateTime) (st : KbState) :
    Except ValidationError KbState :=
  match st.datasets.mapM (fun f => parseDataset now f.2) with
  | .error e => .error e
  | .ok ds =>
    match st.projects.mapM (fun f => parseProject now f.2) with
    | .error e => .error e
    | .ok ps =>
      .ok { st with indices := (writeFile st.indices "by-filesystem"
              (serializeIndex (updateFilesystemIndex now ds ps))) }

/-- Model of `_update_topic_index` (lines 207-249) as a state transformer. -/
def updateTopicIndexRun (now : DateTime) (st : KbState) :
    Except ValidationError KbState :=
  match st.projects.mapM (fun f => parseProject now f.2) with
  | .error e => .error e
  | .ok ps =>
    .ok { st with indices := (writeFile st.indices "by-topic"
            (serializeIndex (updateTopicIndex now ps))) }

/-- Store state after an `_update_filesystem_index` attempt (exceptions
propagate; the store is untouched on failure). -/
def updateFilesystemIndexFinal (now : DateTime) (st : KbState) : KbState :=
  match updateFilesystemIndexRun now st with
  | .ok st' => st'
  | .error _ => st

/-- Store state after an `_update_topic_index` attempt. -/
def updateTopicIndexFinal (now : DateTime) (st : KbState) : KbState :=
  match updateTopicIndexRun now st with
  | .ok st' => st'
  | .error _ => st

/-- The (key, entry) contributions of a record list, folded into the
grouping dict. -/
def groupPairs (pairs : List (String × IndexEntry)) : List (String × List IndexEntry) :=
  pairs.foldl (fun g kv => addEntry g kv.1 kv.2) []

/-- The (key, entry) pairs contributed to the filesystem index: all datasets
(in enumeration order), then all projects. -/
def fsPairs (ds : List DatasetMetadata) (ps : List ProjectMetadata) :
    List (String × IndexEntry) :=
  ds.map (fun d => (fsRoot d.path, datasetIndexEntry d)) ++
    ps.map (fun p => (fsRoot p.path, projectIndexEntry p))

/-- The (key, entry) pairs contributed to the topic index: one per
(project, topic). -/
def topicPairs (ps : List ProjectMetadata) : List (String × IndexEntry) :=
  ps.flatMap (fun p => (topicsOf p).map (fun t => (t, projectIndexEntry p)))

/-- Whether an `Except` result is the error case. -/
def isErr {α : Type} : Except ValidationError α → Bool
  | .error _ => true
  | .ok _ => false

/-- Whether an event is one of the two index-record (JSON) writes. -/
def BuildEvent.isIndexRecord : BuildEvent → Bool
  | .writeIndexRecord _ => true
  | _ => false

/-- Whether an event writes a rendered markdown document. -/
def BuildEvent.isMarkdownWrite : BuildEvent → Bool
  | .writeIndexRecord _ => false
  | _ => true

/-- Whether an event is an index markdown page write. -/
def BuildEvent.isIndexPage : BuildEvent → Bool
  | .writeIndexPage _ => true
  | _ => false

/-- Whether an event is the root README write. -/
def BuildEvent.isReadme : BuildEvent → Bool
  | .writeReadme => true
  | _ => false

/-- The ordering property asserted by the spec's control-flow sentence:
every index-record write precedes every rendered-markdown write. -/
def indexRecordsFirst (tr : List BuildEvent) : Prop :=
  ∀ i j : Fin tr.length,
    (tr.get i).isIndexRecord = true → (tr.get j).isMarkdownWrite = true → i.1 < j.1

instance (tr : List BuildEvent) : Decidable (indexRecordsFirst tr) := by
  unfold indexRecordsFirst; infer_instance

/-- The trace of writes of a build, when the build succeeds. -/
def buildTraceOf (now : DateTime) (cwdName : String) (st : KbState) :
    Option (List BuildEvent) :=
  match buildKb now cwdName st with
  | .ok (_, _, tr) => some tr
  | .error _ => none

/-! ## Concrete fixtures for witnesses and counterexamples -/

def now0 : DateTime := ⟨2024, 1, 1, 12, 0, 0, 0⟩

def sampleDataset : DatasetMetadata :=
  { name := "Sample Dataset", slug := "sample-dataset", path := "/data/sample",
    description := "A sample dataset for testing", size := "500 MB",
    file_type := "CSV", data_source := "Test lab",
    last_modified := now0, date_added := now0 }

/-- A dataset whose description is exactly 101 characters long. -/
def longDescDataset : DatasetMetadata :=
  { name := "Long", slug := "long", path := "/data/long",
    description := String.mk (List.replicate 101 'a'), size := "1 MB",
    file_type := "CSV", data_source := "lab",
    last_modified := now0, date_added := now0 }

def projA : ProjectMetadata :=
  { name := "Project A", slug := "project-a", path := "/projects/a",
    description := "First project", objectives := "objectives",
    status := .active, date_started := ⟨2024, 1, 1⟩, date_added := now0,
    principal_investigator := "Dr. A", tags := ["a", "b"] }

def projB : ProjectMetadata :=
  { name := "Project B", slug := "project-b", path := "/projects/b",
    description := "Second project", objectives := "objectives",
    status := .completed, date_started := ⟨2024, 1, 1⟩, date_added := now0,
    principal_investigator := "Dr. B", tags := [] }

/-- A store with no dataset or project records and the two index files
created by `init`. -/
def emptyStore : KbState :=
  ⟨none, [], [], [("by-filesystem", Json.null), ("by-topic", Json.null)],
    [], [], [], none⟩

/-- A store holding one valid dataset record and nothing else. -/
def oneDatasetStore : KbState :=
  ⟨none, [("sample-dataset", serializeDataset sampleDataset)], [], [],
    [], [], [], none⟩

/-- The write trace of a build over `oneDatasetStore`. -/
def oneDatasetTrace : List BuildEvent :=
  [.writeDatasetPage "sample-dataset",
   .writeIndexRecord "by-filesystem", .writeIndexRecord "by-topic",
   .writeIndexPage "by-filesystem", .writeIndexPage "by-topic",
   .writeReadme]

/-- A store whose only dataset record lacks required fields. -/
def badRecordStore : KbState :=
  ⟨none, [("bad", Json.obj [("name", Json.str "x")])], [], [],
    [], [], [], none⟩

/-! ## Round-trip lemmas -/

theorem ok_bind {ε α β : Type} (x : α) (f : α → Except ε β) :
    (Except.ok x >>= f) = f x := rfl

theorem err_bind {ε α β : Type} (e : ε) (f : α → Except ε β) :
    ((Except.error e : Except ε α) >>= f) = .error e := rfl

theorem mapM_loop_ok {α : Type} (pe : Json → Except ValidationError α)
    (se : α → Json) (h : ∀ x, pe (se x) = .ok x) :
    ∀ (l : List α) (acc : List α),
      List.mapM.loop pe (l.map se) acc = .ok (acc.reverse ++ l) := by
  intro l
  induction l with
  | nil => intro acc; simp only [List.map_nil, List.mapM.loop, List.append_nil]; rfl
  | cons x xs ih =>
    intro acc
    simp only [List.map_cons, List.mapM.loop, h x, ok_bind, ih (x :: acc),
      List.reverse_cons, List.append_assoc, List.cons_append, List.nil_append]

theorem mapM_map_ok {α : Type} (pe : Json → Except ValidationError α)
    (se : α → Json) (h : ∀ x, pe (se x) = .ok x) :
    ∀ l : List α, (l.map se).mapM pe = .ok l := by
  intro l
  simpa using mapM_loop_ok pe se h l []

theorem parse_serialize_relatedProject (r : RelatedProject) :
    parseRelatedProject (serializeRelatedProject r) = .ok r := by
  cases r with
  | mk name slug description =>
    cases description <;>
      simp [parseRelatedProject, serializeRelatedProject, reqStrField, optStrField,
        findField, Json.ostr, ok_bind]

theorem parse_serialize_relatedDataset (r : RelatedDataset) :
    parseRelatedDataset (serializeRelatedDataset r) = .ok r := by
  cases r with
  | mk name slug description =>
    cases description <;>
      simp [parseRelatedDataset, serializeRelatedDataset, reqStrField, optStrField,
        findField, Json.ostr, ok_bind]

theorem parse_serialize_script (s : Script) :
    parseScript (serializeScript s) = .ok s := by
  cases s with
  | mk path description language =>
    cases language <;>
      simp [parseScript, serializeScript, reqStrField, optStrField,
        findField, Json.ostr, ok_bind]

theorem parseRole_roleValue (r : CollaboratorRole) :
    parseRole (.str (roleValue r)) = .ok r := by
  cases r <;> rfl

theorem parseStatusVal_statusValue (s : ProjectStatus) :
    parseStatusVal (.str (statusValue s)) = .ok s := by
  cases s <;> rfl

theorem parse_serialize_collaborator (c : Collaborator) :
    parseCollaborator (serializeCollaborator c) = .ok c := by
  cases c with
  | mk name role email affiliation =>
    cases email <;> cases affiliation <;>
      simp [parseCollaborator, serializeCollaborator, reqStrField, optStrField,
        findField, Json.ostr, ok_bind, parseRole_roleValue]

theorem parse_serialize_publication (p : Publication) :
    parsePublication (serializePublication p) = .ok p := by
  cases p with
  | mk title journal year doi url =>
    cases doi <;> cases url <;>
      simp [parsePublication, serializePublication, reqStrField, reqIntField,
        optStrField, findField, Json.ostr, ok_bind]

theorem parse_serialize_dataset (now : DateTime) (d : DatasetMetadata) :
    parseDataset now (serializeDataset d) = .ok d := by
  cases d with
  | mk name slug path description size size_bytes file_type file_count compression
      data_source last_modified date_added related_projects access_notes tags =>
    cases size_bytes <;> cases file_count <;> cases compression <;> cases access_notes <;>
      simp [parseDataset, serializeDataset, reqStrField, optStrField, optIntField,
        reqDTimeField, defDTimeField, listField, findField, Json.ostr, Json.oint,
        ok_bind, List.mapM, mapM_loop_ok _ _ parse_serialize_relatedProject,
        mapM_loop_ok _ _ (fun s => (rfl : parseStr (Json.str s) = .ok s))]

theorem parse_serialize_project (now : DateTime) (p : ProjectMetadata) :
    parseProject now (serializeProject p) = .ok p := by
  cases p with
  | mk name slug path description objectives status date_started date_completed
      date_added principal_investigator collaborators datasets scripts results_path
      results_description publications tags =>
    cases date_completed <;> cases results_path <;> cases results_description <;>
      simp [parseProject, serializeProject, reqStrField, optStrField, parseStatus,
        parseStatusVal_statusValue, reqDateField, optDateField, defDTimeField,
        listField, findField, Json.ostr, Json.odate, ok_bind, List.mapM,
        mapM_loop_ok _ _ parse_serialize_collaborator,
        mapM_loop_ok _ _ parse_serialize_relatedDataset,
        mapM_loop_ok _ _ parse_serialize_script,
        mapM_loop_ok _ _ parse_serialize_publication,
        mapM_loop_ok _ _ (fun s => (rfl : parseStr (Json.str s) = .ok s))]

theorem parse_serialize_indexEntry (e : IndexEntry) :
    parseIndexEntry (serializeIndexEntry e) = .ok e := by
  cases e with
  | mk name link description category =>
    cases description <;> cases category <;>
      simp [parseIndexEntry, serializeIndexEntry, reqStrField, optStrField,
        findField, Json.ostr, ok_bind]

theorem parse_serialize_indexCategory (c : IndexCategory) :
    parseIndexCategory (serializeIndexCategory c) = .ok c := by
  cases c with
  | mk category entries =>
    simp [parseIndexCategory, serializeIndexCategory, reqStrField, findField,
      ok_bind, List.mapM, mapM_loop_ok _ _ parse_serialize_indexEntry]

theorem parse_serialize_index (now : DateTime) (i : IndexMetadata) :
    parseIndex now (serializeIndex i) = .ok i := by
  cases i with
  | mk title description entries last_updated =>
    simp [parseIndex, serializeIndex, reqStrField, defDTimeField, listField,
      findField, ok_bind, List.mapM, mapM_loop_ok _ _ parse_serialize_indexCategory]

theorem dropWhile_eq_self_of_forall {p : Char → Bool} {l : List Char}
    (h : ∀ c ∈ l, p c = false) : l.dropWhile p = l := by
  cases l with
  | nil => rfl
  | cons c rest => simp [List.dropWhile, h c (List.mem_cons_self c rest)]

theorem dropWhile_eq_self_of_headQ {p : Char → Bool} {l : List Char}
    (h : ∀ c, l.head? = some c → p c = false) : l.dropWhile p = l := by
  cases l with
  | nil => rfl
  | cons c rest => simp [List.dropWhile, h c rfl]

theorem headQ_dropWhile_not (p : Char → Bool) (l : List Char) :
    ∀ c, (l.dropWhile p).head? = some c → p c = false := by
  induction l with
  | nil => intro c h; simp [List.dropWhile] at h
  | cons x rest ih =>
    intro c h
    by_cases hx : p x
    · simp [List.dropWhile, hx] at h
      exact ih c h
    · simp [List.dropWhile, hx] at h
      simp [← h]
      exact eq_false_of_ne_true hx

theorem mem_dropWhile {p : Char → Bool} {l : List Char} {c : Char}
    (h : c ∈ l.dropWhile p) : c ∈ l :=
  (List.dropWhile_suffix p).subset h

theorem mem_pyStrip {p : Char → Bool} {l : List Char} {c : Char}
    (h : c ∈ pyStrip p l) : c ∈ l := by
  unfold pyStrip dropTrailing at h
  rw [List.mem_reverse] at h
  have := mem_dropWhile h
  rw [List.mem_reverse] at this
  exact mem_dropWhile this

theorem mem_collapseSeps {b : Bool} {l : List Char} {c : Char}
    (h : c ∈ collapseSeps b l) : c = '-' ∨ (c ∈ l ∧ isSep c = false) := by
  induction l generalizing b with
  | nil => simp [collapseSeps] at h
  | cons x rest ih =>
    by_cases hx : isSep x
    · cases b with
      | true =>
        simp only [collapseSeps, hx, if_true] at h
        rcases ih h with h' | h'
        · exact Or.inl h'
        · exact Or.inr ⟨List.mem_cons_of_mem x h'.1, h'.2⟩
      | false =>
        simp only [collapseSeps, hx, if_true, Bool.false_eq_true, if_false,
          List.mem_cons] at h
        rcases h with h | h
        · exact Or.inl h
        · rcases ih h with h' | h'
          · exact Or.inl h'
          · exact Or.inr ⟨List.mem_cons_of_mem x h'.1, h'.2⟩
    · simp only [collapseSeps, hx, Bool.false_eq_true, if_false,
        List.mem_cons] at h
      rcases h with h | h
      · exact Or.inr ⟨h ▸ List.mem_cons_self x rest, h ▸ eq_false_of_ne_true hx⟩
      · rcases ih h with h' | h'
        · exact Or.inl h'
        · exact Or.inr ⟨List.mem_cons_of_mem x h'.1, h'.2⟩

theorem headQ_collapseSeps_true {l : List Char} :
    ∀ c, (collapseSeps true l).head? = some c → isSep c = false := by
  induction l with
  | nil => intro c h; simp [collapseSeps] at h
  | cons x rest ih =>
    intro c h
    by_cases hx : isSep x
    · simp only [collapseSeps, hx, if_true] at h
      exact ih c h
    · simp only [collapseSeps, hx, Bool.false_eq_true, if_false,
        List.head?_cons, Option.some_inj] at h
      exact h ▸ eq_false_of_ne_true hx

theorem chain_collapseSeps (b : Bool) (l : List Char) :
    List.Chain' (fun a b => ¬(a = '-' ∧ b = '-')) (collapseSeps b l) := by
  induction l generalizing b with
  | nil => simp [collapseSeps]
  | cons x rest ih =>
    by_cases hx : isSep x
    · cases b with
      | true => simpa only [collapseSeps, hx, if_true] using ih true
      | false =>
        simp only [collapseSeps, hx, if_true, Bool.false_eq_true, if_false]
        rw [List.chain'_cons']
        refine ⟨?_, ih true⟩
        intro y hy
        have := headQ_collapseSeps_true y hy
        intro ⟨_, hy'⟩
        rw [hy'] at this
        exact absurd this (by decide)
    · have hx0 : isSep x = false := eq_false_of_ne_true hx
      simp only [collapseSeps, hx0, Bool.false_eq_true, if_false]
      rw [List.chain'_cons']
      refine ⟨?_, ih false⟩
      intro y hy
      intro ⟨hx', _⟩
      rw [hx'] at hx0
      exact absurd hx0 (by decide)

theorem headQ_of_prefixQ {x m : List Char} {c : Char}
    (hp : x <+: m) (h : x.head? = some c) : m.head? = some c := by
  rcases hp with ⟨t, rfl⟩
  cases x with
  | nil => simp at h
  | cons a as => simpa using h

theorem dropTrailing_prefixQ (p : Char → Bool) (l : List Char) :
    dropTrailing p l <+: l := by
  unfold dropTrailing
  rw [← List.reverse_reverse l]
  rw [← List.reverse_suffix, List.reverse_reverse, List.reverse_reverse]
  exact List.dropWhile_suffix p

theorem headQ_pyStrip (p : Char → Bool) (l : List Char) :
    ∀ c, (pyStrip p l).head? = some c → p c = false := by
  intro c h
  unfold pyStrip at h
  have h2 := headQ_of_prefixQ (dropTrailing_prefixQ p (l.dropWhile p)) h
  exact headQ_dropWhile_not p l c h2

theorem getLastQ_pyStrip (p : Char → Bool) (l : List Char) :
    ∀ c, (pyStrip p l).getLast? = some c → p c = false := by
  intro c h
  unfold pyStrip dropTrailing at h
  have he : ∀ y : List Char, y.reverse.getLast? = y.head? := by
    intro y
    have h0 := List.head?_reverse y.reverse
    rw [List.reverse_reverse] at h0
    exact h0.symm
  rw [he] at h
  exact headQ_dropWhile_not p _ c h

theorem chainQ_dropWhile {R : Char → Char → Prop} (p : Char → Bool) {l : List Char}
    (h : List.Chain' R l) : List.Chain' R (l.dropWhile p) := by
  rcases List.dropWhile_suffix p (l := l) with ⟨t, ht⟩
  rw [← ht] at h
  exact (List.chain'_append.mp h).2.1

theorem chain_pyStrip {R : Char → Char → Prop} (hsymm : ∀ a b, R a b → R b a)
    (p : Char → Bool) {l : List Char} (h : List.Chain' R l) :
    List.Chain' R (pyStrip p l) := by
  unfold pyStrip dropTrailing
  have h1 : List.Chain' R (l.dropWhile p) := chainQ_dropWhile p h
  have h2 : List.Chain' R (l.dropWhile p).reverse :=
    List.chain'_reverse.mpr (h1.imp fun a b hab => hsymm a b hab)
  have h3 : List.Chain' R ((l.dropWhile p).reverse.dropWhile p) := chainQ_dropWhile p h2
  exact List.chain'_reverse.mpr (h3.imp fun a b hab => hsymm a b hab)

theorem dropTrailing_eq_self_of_getLastQ {p : Char → Bool} {l : List Char}
    (h : ∀ c, l.getLast? = some c → p c = false) : dropTrailing p l = l := by
  unfold dropTrailing
  rw [dropWhile_eq_self_of_headQ, List.reverse_reverse]
  intro c hc
  rw [List.head?_reverse] at hc
  exact h c hc

theorem pyStrip_eq_self_of_endsQ {p : Char → Bool} {l : List Char}
    (hh : ∀ c, l.head? = some c → p c = false)
    (hl : ∀ c, l.getLast? = some c → p c = false) : pyStrip p l = l := by
  unfold pyStrip
  rw [dropWhile_eq_self_of_headQ hh, dropTrailing_eq_self_of_getLastQ hl]

theorem pyStrip_eq_self_of_forall {p : Char → Bool} {l : List Char}
    (h : ∀ c ∈ l, p c = false) : pyStrip p l = l := by
  refine pyStrip_eq_self_of_endsQ ?_ ?_
  · intro c hc
    cases l with
    | nil => simp at hc
    | cons a as =>
      simp only [List.head?_cons, Option.some_inj] at hc
      exact hc ▸ h a (List.mem_cons_self a as)
  · intro c hc
    rcases List.mem_getLast?_eq_getLast (Option.mem_def.mpr hc) with ⟨hne, rfl⟩
    exact h _ (List.getLast_mem hne)

theorem slugChar_not_upper {c : Char} (h : isSlugChar c = true) :
    ¬('A' ≤ c ∧ c ≤ 'Z') := by
  simp only [isSlugChar, Bool.or_eq_true, Bool.and_eq_true, decide_eq_true_eq] at h
  rintro ⟨h1, h2⟩
  rcases h with (⟨ha, _⟩ | ⟨_, hb⟩) | hc
  · exact absurd (le_trans ha h2) (by decide)
  · exact absurd (le_trans h1 hb) (by decide)
  · subst hc; exact absurd h1 (by decide)

theorem slugChar_no_space {c : Char} (h : isSlugChar c = true) :
    isPySpace c = false := by
  cases hs : isPySpace c with
  | false => rfl
  | true =>
    simp only [isPySpace, Bool.or_eq_true, decide_eq_true_eq] at hs
    rcases hs with ((((rfl | rfl) | rfl) | rfl) | rfl) | rfl <;> exact absurd h (by decide)

theorem slugChar_keep {c : Char} (h : isSlugChar c = true) : keepChar c = true := by
  simp only [isSlugChar, Bool.or_eq_true, Bool.and_eq_true] at h
  simp only [keepChar, Bool.or_eq_true, Bool.and_eq_true]
  tauto

theorem keep_notSep_slugChar {c : Char} (hk : keepChar c = true) (hs : isSep c = false) :
    isSlugChar c = true := by
  simp only [keepChar, Bool.or_eq_true, Bool.and_eq_true] at hk
  simp only [isSep, Bool.or_eq_true] at hs
  simp only [isSlugChar, Bool.or_eq_true, Bool.and_eq_true]
  rcases hk with ((h | h) | h) | h
  · tauto
  · tauto
  · rw [h] at hs; simp at hs
  · tauto

theorem pyLowerChar_eq_self {c : Char} (h : isSlugChar c = true) :
    pyLowerChar c = c := by
  unfold pyLowerChar
  rw [if_neg (slugChar_not_upper h)]

theorem map_pyLower_eq_self {l : List Char} (h : ∀ c ∈ l, isSlugChar c = true) :
    l.map pyLowerChar = l := by
  induction l with
  | nil => rfl
  | cons x rest ih =>
    simp only [List.map_cons]
    rw [pyLowerChar_eq_self (h x (List.mem_cons_self x rest)),
      ih (fun c hc => h c (List.mem_cons_of_mem x hc))]

theorem collapseSeps_eq_self : ∀ {l : List Char} {b : Bool},
    (∀ c ∈ l, isPySpace c = false) →
    List.Chain' (fun a b => ¬(a = '-' ∧ b = '-')) l →
    (b = true → ∀ c, l.head? = some c → c ≠ '-') →
    collapseSeps b l = l := by
  intro l
  induction l with
  | nil => intro b _ _ _; rfl
  | cons x rest ih =>
    intro b hsp hch hb
    by_cases hx : isSep x
    · have hx' : x = '-' := by
        have hx0 := hsp x (List.mem_cons_self x rest)
        simp only [isSep, hx0, Bool.false_or, decide_eq_true_eq] at hx
        exact hx
      subst hx'
      cases b with
      | true => exact absurd rfl (hb rfl '-' rfl)
      | false =>
        simp only [collapseSeps, hx, if_true, Bool.false_eq_true, if_false]
        congr 1
        refine ih (fun c hc => hsp c (List.mem_cons_of_mem _ hc))
          (List.chain'_cons'.mp hch).2 ?_
        intro _ c hc hcEq
        exact (List.chain'_cons'.mp hch).1 c hc ⟨rfl, hcEq⟩
    · have hx0 : isSep x = false := eq_false_of_ne_true hx
      simp only [collapseSeps, hx0, Bool.false_eq_true, if_false]
      congr 1
      refine ih (fun c hc => hsp c (List.mem_cons_of_mem _ hc))
        (List.chain'_cons'.mp hch).2 ?_
      intro hfalse
      exact absurd hfalse (by decide)

theorem slug_data_eq (name : String) :
    (_generate_slug name).data =
      pyStrip (fun c => c = '-')
        (collapseSeps false
          ((pyStrip isPySpace (name.data.map pyLowerChar)).filter keepChar)) := rfl

theorem slug_chars (name : String) :
    ∀ c ∈ (_generate_slug name).data, isSlugChar c = true := by
  intro c hc
  rw [slug_data_eq] at hc
  have hc2 := mem_pyStrip hc
  rcases mem_collapseSeps hc2 with rfl | ⟨hmem, hsep⟩
  · decide
  · exact keep_notSep_slugChar (List.of_mem_filter hmem) hsep

theorem slug_headQ (name : String) :
    ∀ c, (_generate_slug name).data.head? = some c → c ≠ '-' := by
  intro c hc
  rw [slug_data_eq] at hc
  have := headQ_pyStrip _ _ c hc
  simpa using this

theorem slug_getLastQ (name : String) :
    ∀ c, (_generate_slug name).data.getLast? = some c → c ≠ '-' := by
  intro c hc
  rw [slug_data_eq] at hc
  have := getLastQ_pyStrip _ _ c hc
  simpa using this

theorem slug_chain (name : String) :
    List.Chain' (fun a b => ¬(a = '-' ∧ b = '-')) (_generate_slug name).data := by
  rw [slug_data_eq]
  exact chain_pyStrip (fun a b hab ⟨h1, h2⟩ => hab ⟨h2, h1⟩) _
    (chain_collapseSeps false _)

theorem slug_idempotent (name : String) :
    _generate_slug (_generate_slug name) = _generate_slug name := by
  have hall := slug_chars name
  have hsp : ∀ c ∈ (_generate_slug name).data, isPySpace c = false :=
    fun c hc => slugChar_no_space (hall c hc)
  show String.mk
      (pyStrip (fun c => c = '-')
        (collapseSeps false
          ((pyStrip isPySpace ((_generate_slug name).data.map pyLowerChar)).filter
            keepChar))) = _generate_slug name
  rw [map_pyLower_eq_self hall]
  rw [pyStrip_eq_self_of_forall hsp]
  rw [List.filter_eq_self.mpr (fun c hc => slugChar_keep (hall c hc))]
  rw [collapseSeps_eq_self hsp (slug_chain name) (fun hfalse => absurd hfalse (by decide))]
  rw [pyStrip_eq_self_of_endsQ
    (fun c hc => by simpa using slug_headQ name c hc)
    (fun c hc => by simpa using slug_getLastQ name c hc)]

theorem findGroup_addEntry (g : List (String × List IndexEntry)) (key k : String)
    (e : IndexEntry) :
    findGroup k (addEntry g key e) =
      if k = key then some ((findGroup k g).getD [] ++ [e]) else findGroup k g := by
  induction g with
  | nil =>
    by_cases h : k = key
    · subst h; simp [addEntry, findGroup]
    · simp [addEntry, findGroup, h, Ne.symm h]
  | cons kv rest ih =>
    obtain ⟨k', es⟩ := kv
    by_cases h1 : k' = key
    · subst h1
      by_cases h2 : k = k'
      · subst h2; simp [addEntry, findGroup]
      · simp [addEntry, findGroup, h2, Ne.symm h2]
    · by_cases h2 : k' = k
      · subst h2
        have h3 : ¬(k' = key) := h1
        simp [addEntry, findGroup, h1, h3]
      · simp [addEntry, findGroup, h1, h2, ih]

theorem findGroup_foldl (pairs : List (String × IndexEntry)) :
    ∀ (g0 : List (String × List IndexEntry)) (k : String),
      findGroup k (pairs.foldl (fun g kv => addEntry g kv.1 kv.2) g0) =
        if findGroup k g0 = none ∧ pairs.filter (fun kv => kv.1 = k) = [] then none
        else some ((findGroup k g0).getD [] ++
          (pairs.filter (fun kv => kv.1 = k)).map Prod.snd) := by
  induction pairs with
  | nil => intro g0 k; cases h : findGroup k g0 <;> simp [h]
  | cons kv rest ih =>
    intro g0 k
    obtain ⟨kk, e⟩ := kv
    simp only [List.foldl_cons]
    rw [ih, findGroup_addEntry]
    by_cases h : k = kk
    · subst h
      simp only [List.filter_cons, decide_eq_true_eq, eq_self_iff_true, if_true]
      have hne : ¬((some ((findGroup k g0).getD [] ++ [e]) : Option (List IndexEntry)) = none ∧
          rest.filter (fun kv => kv.1 = k) = []) := by
        intro ⟨hc, _⟩; exact Option.some_ne_none _ hc
      rw [if_neg hne]
      have hne2 : ¬(findGroup k g0 = none ∧
          ((k, e) :: rest.filter (fun kv => kv.1 = k)) = []) := by
        intro ⟨_, hc⟩; exact List.cons_ne_nil _ _ hc
      rw [if_neg hne2]
      simp [List.append_assoc]
    · have h' : ¬(kk = k) := fun hh => h hh.symm
      rw [if_neg h]
      simp only [List.filter_cons, decide_eq_true_eq, if_neg h']

theorem findGroup_groupPairs (pairs : List (String × IndexEntry)) (k : String) :
    findGroup k (groupPairs pairs) =
      if pairs.filter (fun kv => kv.1 = k) = [] then none
      else some ((pairs.filter (fun kv => kv.1 = k)).map Prod.snd) := by
  rw [groupPairs, findGroup_foldl]
  by_cases h : pairs.filter (fun kv => kv.1 = k) = [] <;> simp [findGroup, h]

theorem mem_of_findGroup_some {g : List (String × List IndexEntry)} {k : String}
    {es : List IndexEntry} (h : findGroup k g = some es) : (k, es) ∈ g := by
  induction g with
  | nil => simp [findGroup] at h
  | cons kv rest ih =>
    obtain ⟨k', es'⟩ := kv
    by_cases h1 : k' = k
    · subst h1
      simp only [findGroup, eq_self_iff_true, if_true, Option.some_inj] at h
      subst h
      exact List.mem_cons_self _ _
    · simp only [findGroup, h1, if_false] at h
      exact List.mem_cons_of_mem _ (ih h)

theorem findGroup_eq_of_mem {g : List (String × List IndexEntry)} {k : String}
    {es : List IndexEntry} (hnd : (g.map Prod.fst).Nodup) (h : (k, es) ∈ g) :
    findGroup k g = some es := by
  induction g with
  | nil => simp at h
  | cons kv rest ih =>
    obtain ⟨k', es'⟩ := kv
    rcases List.mem_cons.mp h with h0 | h0
    · injection h0 with h0a h0b
      subst h0a; subst h0b
      simp [findGroup]
    · have hk : k' ≠ k := by
        intro heq
        have hmem : k ∈ rest.map Prod.fst := List.mem_map.mpr ⟨(k, es), h0, rfl⟩
        rw [heq] at hnd
        exact (List.nodup_cons.mp (by simpa using hnd)).1 hmem
      simp only [findGroup, hk, if_false]
      exact ih (List.nodup_cons.mp (by simpa using hnd)).2 h0

theorem keys_addEntry_subset {g : List (String × List IndexEntry)} {key x : String}
    {e : IndexEntry} (h : x ∈ (addEntry g key e).map Prod.fst) :
    x ∈ g.map Prod.fst ∨ x = key := by
  induction g with
  | nil => simp [addEntry] at h; exact Or.inr h
  | cons kv rest ih =>
    obtain ⟨k', es'⟩ := kv
    by_cases h1 : k' = key
    · subst h1
      simp only [addEntry, eq_self_iff_true, if_true] at h
      exact Or.inl (by simpa using h)
    · simp only [addEntry, h1, if_false, List.map_cons, List.mem_cons] at h
      rcases h with h | h
      · exact Or.inl (by simp [h])
      · rcases ih h with h' | h'
        · exact Or.inl (List.mem_cons_of_mem _ h')
        · exact Or.inr h'

theorem nodup_keys_addEntry {g : List (String × List IndexEntry)} {key : String}
    {e : IndexEntry} (hnd : (g.map Prod.fst).Nodup) :
    ((addEntry g key e).map Prod.fst).Nodup := by
  induction g with
  | nil => simp [addEntry]
  | cons kv rest ih =>
    obtain ⟨k', es'⟩ := kv
    rw [List.map_cons, List.nodup_cons] at hnd
    by_cases h1 : k' = key
    · subst h1
      simp only [addEntry, eq_self_iff_true, if_true, List.map_cons, List.nodup_cons]
      exact hnd
    · simp only [addEntry, h1, if_false, List.map_cons, List.nodup_cons]
      refine ⟨?_, ih hnd.2⟩
      intro hmem
      rcases keys_addEntry_subset hmem with h' | h'
      · exact hnd.1 h'
      · exact h1 h'

theorem nodup_keys_groupPairs (pairs : List (String × IndexEntry)) :
    ((groupPairs pairs).map Prod.fst).Nodup := by
  have main : ∀ (g0 : List (String × List IndexEntry)), (g0.map Prod.fst).Nodup →
      ((pairs.foldl (fun g kv => addEntry g kv.1 kv.2) g0).map Prod.fst).Nodup := by
    induction pairs with
    | nil => intro g0 h; simpa using h
    | cons kv rest ih =>
      intro g0 h
      simp only [List.foldl_cons]
      exact ih _ (nodup_keys_addEntry h)
  exact main [] (by simp)

theorem foldl_flatMap {α β γ : Type} (f : α → List β) (step : γ → β → γ) :
    ∀ (l : List α) (init : γ),
      (l.flatMap f).foldl step init = l.foldl (fun acc x => (f x).foldl step acc) init := by
  intro l
  induction l with
  | nil => intro init; rfl
  | cons x rest ih =>
    intro init
    simp only [List.flatMap_cons, List.foldl_append, List.foldl_cons, ih]

theorem updateFilesystemIndex_entries (now : DateTime) (ds : List DatasetMetadata)
    (ps : List ProjectMetadata) :
    (updateFilesystemIndex now ds ps).entries =
      (sortGroups (groupPairs (fsPairs ds ps))).map
        (fun kv => { category := kv.1, entries := kv.2 }) := by
  unfold updateFilesystemIndex groupPairs fsPairs
  simp only [List.foldl_append, List.foldl_map]

theorem updateTopicIndex_entries (now : DateTime) (ps : List ProjectMetadata) :
    (updateTopicIndex now ps).entries =
      (sortGroups (groupPairs (topicPairs ps))).map
        (fun kv => { category := kv.1, entries := kv.2 }) := by
  unfold updateTopicIndex groupPairs topicPairs
  rw [foldl_flatMap]
  simp only [List.foldl_map]

theorem mem_topicPairs {ps : List ProjectMetadata} {k : String} {e : IndexEntry} :
    (k, e) ∈ topicPairs ps ↔ ∃ p ∈ ps, k ∈ topicsOf p ∧ e = projectIndexEntry p := by
  simp only [topicPairs, List.mem_flatMap, List.mem_map, Prod.mk.injEq]
  constructor
  · rintro ⟨p, hp, t, ht, rfl, rfl⟩
    exact ⟨p, hp, ht, rfl⟩
  · rintro ⟨p, hp, ht, rfl⟩
    exact ⟨p, hp, k, ht, rfl, rfl⟩

theorem mem_cats_iff {g : List (String × List IndexEntry)} {c : IndexCategory} :
    c ∈ (sortGroups g).map (fun kv => ({ category := kv.1, entries := kv.2 } : IndexCategory)) ↔
      ∃ kv ∈ g, c = { category := kv.1, entries := kv.2 } := by
  rw [List.mem_map]
  constructor
  · rintro ⟨kv, hkv, rfl⟩
    exact ⟨kv, (List.perm_insertionSort keyLe g).mem_iff.mp hkv, rfl⟩
  · rintro ⟨kv, hkv, rfl⟩
    exact ⟨kv, (List.perm_insertionSort keyLe g).mem_iff.mpr hkv, rfl⟩

theorem findGroup_of_mem_cats {pairs : List (String × IndexEntry)} {c : IndexCategory}
    (hc : c ∈ (sortGroups (groupPairs pairs)).map
      (fun kv => ({ category := kv.1, entries := kv.2 } : IndexCategory))) :
    findGroup c.category (groupPairs pairs) = some c.entries := by
  rcases mem_cats_iff.mp hc with ⟨kv, hkv, rfl⟩
  exact findGroup_eq_of_mem (nodup_keys_groupPairs pairs) hkv

theorem cats_of_findGroup {pairs : List (String × IndexEntry)} {k : String}
    {es : List IndexEntry} (h : findGroup k (groupPairs pairs) = some es) :
    ({ category := k, entries := es } : IndexCategory) ∈
      (sortGroups (groupPairs pairs)).map
        (fun kv => ({ category := kv.1, entries := kv.2 } : IndexCategory)) :=
  mem_cats_iff.mpr ⟨(k, es), mem_of_findGroup_some h, rfl⟩

theorem entry_source {pairs : List (String × IndexEntry)} {c : IndexCategory}
    {e : IndexEntry}
    (hc : c ∈ (sortGroups (groupPairs pairs)).map
      (fun kv => ({ category := kv.1, entries := kv.2 } : IndexCategory)))
    (he : e ∈ c.entries) : (c.category, e) ∈ pairs := by
  have hfind := findGroup_of_mem_cats hc
  rw [findGroup_groupPairs] at hfind
  by_cases hf : pairs.filter (fun kv => kv.1 = c.category) = []
  · rw [if_pos hf] at hfind; exact absurd hfind (by simp)
  · rw [if_neg hf] at hfind
    have hes : c.entries = (pairs.filter (fun kv => kv.1 = c.category)).map Prod.snd :=
      (Option.some_inj.mp hfind).symm
    rw [hes] at he
    rcases List.mem_map.mp he with ⟨kv, hkv, rfl⟩
    have hkey : kv.1 = c.category := by
      have := List.of_mem_filter hkv
      simpa using this
    have : kv ∈ pairs := List.mem_of_mem_filter hkv
    rwa [← hkey]

theorem entry_mem_of_pair {pairs : List (String × IndexEntry)} {k : String}
    {e : IndexEntry} (h : (k, e) ∈ pairs) :
    ∃ es, findGroup k (groupPairs pairs) = some es ∧ e ∈ es := by
  have hfe : (k, e) ∈ pairs.filter (fun kv => kv.1 = k) :=
    List.mem_filter.mpr ⟨h, by simp⟩
  have hne : pairs.filter (fun kv => kv.1 = k) ≠ [] := List.ne_nil_of_mem hfe
  refine ⟨(pairs.filter (fun kv => kv.1 = k)).map Prod.snd, ?_, ?_⟩
  · rw [findGroup_groupPairs, if_neg hne]
  · exact List.mem_map.mpr ⟨(k, e), hfe, rfl⟩

theorem cats_keys_nodup (pairs : List (String × IndexEntry)) :
    (((sortGroups (groupPairs pairs)).map
      (fun kv => ({ category := kv.1, entries := kv.2 } : IndexCategory))).map
        (fun c => c.category)).Nodup := by
  rw [List.map_map]
  have hperm : List.Perm ((sortGroups (groupPairs pairs)).map Prod.fst)
      ((groupPairs pairs).map Prod.fst) :=
    (List.perm_insertionSort keyLe (groupPairs pairs)).map Prod.fst
  have : ((sortGroups (groupPairs pairs)).map Prod.fst).Nodup :=
    hperm.nodup_iff.mpr (nodup_keys_groupPairs pairs)
  simpa [Function.comp] using this

theorem cats_keys_sorted (g : List (String × List IndexEntry)) :
    List.Sorted (· ≤ ·)
      (((sortGroups g).map
        (fun kv => ({ category := kv.1, entries := kv.2 } : IndexCategory))).map
          (fun c => c.category)) := by
  rw [List.map_map]
  have h0 : List.Sorted keyLe (sortGroups g) := List.sorted_insertionSort keyLe g
  have h1 : List.Pairwise (fun a b : String × List IndexEntry => a.1 ≤ b.1)
      (sortGroups g) := h0
  rw [show ((fun c : IndexCategory => c.category) ∘
      (fun kv : String × List IndexEntry => ({ category := kv.1, entries := kv.2 } : IndexCategory)))
    = fun kv : String × List IndexEntry => kv.1 from rfl]
  exact List.pairwise_map.mpr h1

theorem mapM_loop_error {α : Type} (pf : String × Json → Except ValidationError α) :
    ∀ (l : List (String × Json)) (acc : List α),
      (∃ f ∈ l, isErr (pf f) = true) →
      ∃ e, List.mapM.loop pf l acc = .error e := by
  intro l
  induction l with
  | nil => intro acc ⟨f, hf, _⟩; simp at hf
  | cons x rest ih =>
    intro acc ⟨f, hf, hferr⟩
    cases hx : pf x with
    | error e => exact ⟨e, by simp [List.mapM.loop, hx, err_bind]⟩
    | ok a =>
      rcases List.mem_cons.mp hf with rfl | hf'
      · rw [hx] at hferr; simp [isErr] at hferr
      · have ⟨e, he⟩ := ih (a :: acc) ⟨f, hf', hferr⟩
        exact ⟨e, by simp [List.mapM.loop, hx, ok_bind, he]⟩

theorem mapM_error {α : Type} (pf : String × Json → Except ValidationError α)
    (l : List (String × Json)) (h : ∃ f ∈ l, isErr (pf f) = true) :
    ∃ e, l.mapM pf = .error e :=
  mapM_loop_error pf l [] h

/-- Entries carry the slug in their `link`, so equal project entries have
equal slugs. -/
theorem projectIndexEntry_slug {q p : ProjectMetadata}
    (h : projectIndexEntry q = projectIndexEntry p) : q.slug = p.slug := by
  have hl : "../projects/" ++ q.slug ++ ".md" = "../projects/" ++ p.slug ++ ".md" :=
    congrArg IndexEntry.link h
  have hd := congrArg String.data hl
  simp only [String.data_append] at hd
  have h2 := List.append_cancel_right hd
  have h3 := List.append_cancel_left h2
  cases hq : q.slug; cases hp : p.slug
  rw [hq, hp] at h3
  simp only at h3
  rw [h3]

theorem mem_topicsOf_iff (p : ProjectMetadata) (t : String) :
    t ∈ topicsOf p ↔ (t ∈ p.tags ∨ (p.tags = [] ∧ t = "Untagged")) := by
  unfold topicsOf
  by_cases h : p.tags.isEmpty
  · have h0 : p.tags = [] := List.isEmpty_iff.mp h
    simp [h, h0]
  · have h0 : p.tags ≠ [] := fun hc => h (List.isEmpty_iff.mpr hc)
    simp [h, h0]

theorem mem_fsPairs {ds : List DatasetMetadata} {ps : List ProjectMetadata}
    {k : String} {e : IndexEntry} :
    (k, e) ∈ fsPairs ds ps ↔
      ((∃ d ∈ ds, k = fsRoot d.path ∧ e = datasetIndexEntry d) ∨
        (∃ p ∈ ps, k = fsRoot p.path ∧ e = projectIndexEntry p)) := by
  simp only [fsPairs, List.mem_append, List.mem_map, Prod.mk.injEq]
  constructor
  · rintro (⟨d, hd, rfl, rfl⟩ | ⟨p, hp, rfl, rfl⟩)
    · exact Or.inl ⟨d, hd, rfl, rfl⟩
    · exact Or.inr ⟨p, hp, rfl, rfl⟩
  · rintro (⟨d, hd, rfl, rfl⟩ | ⟨p, hp, rfl, rfl⟩)
    · exact Or.inl ⟨d, hd, rfl, rfl⟩
    · exact Or.inr ⟨p, hp, rfl, rfl⟩

/-! ## Claim theorems -/

/-- C4: for every input set of dataset and project records, in every
enumeration order, the categories of the filesystem index and of the topic
index are sorted lexicographically by their category key. -/
theorem C4_categories_sorted :
    (∀ (now : DateTime) (ds : List DatasetMetadata) (ps : List ProjectMetadata),
      List.Sorted (· ≤ ·)
        ((updateFilesystemIndex now ds ps).entries.map (fun c => c.category)))
    ∧ (∀ (now : DateTime) (ps : List ProjectMetadata),
      List.Sorted (· ≤ ·)
        ((updateTopicIndex now ps).entries.map (fun c => c.category))) := by
  constructor
  · intro now ds ps
    rw [updateFilesystemIndex_entries]
    exact cats_keys_sorted _
  · intro now ps
    rw [updateTopicIndex_entries]
    exact cats_keys_sorted _

/-- C5: every description placed into an index entry is truncated to its
first 100 characters plus an ellipsis marker when longer than 100
characters, and carried over unchanged when at most 100 characters; and
every entry of either index is built by exactly these entry constructors
from a record of the input. -/
theorem C5_description_truncation :
    (∀ d : DatasetMetadata,
      (d.description.length > 100 →
        (datasetIndexEntry d).description = some (d.description.take 100 ++ "...")) ∧
      (d.description.length ≤ 100 →
        (datasetIndexEntry d).description = some d.description))
    ∧ (∀ p : ProjectMetadata,
      (p.description.length > 100 →
        (projectIndexEntry p).description = some (p.description.take 100 ++ "...")) ∧
      (p.description.length ≤ 100 →
        (projectIndexEntry p).description = some p.description))
    ∧ (∀ (now : DateTime) (ds : List DatasetMetadata) (ps : List ProjectMetadata)
        (c : IndexCategory) (e : IndexEntry),
        c ∈ (updateFilesystemIndex now ds ps).entries → e ∈ c.entries →
          (∃ d ∈ ds, e = datasetIndexEntry d) ∨ (∃ p ∈ ps, e = projectIndexEntry p))
    ∧ (∀ (now : DateTime) (ps : List ProjectMetadata) (c : IndexCategory)
        (e : IndexEntry),
        c ∈ (updateTopicIndex now ps).entries → e ∈ c.entries →
          ∃ p ∈ ps, e = projectIndexEntry p) := by
  refine ⟨?_, ?_, ?_, ?_⟩
  · intro d
    constructor
    · intro h; simp [datasetIndexEntry, if_pos h]
    · intro h; simp [datasetIndexEntry, if_neg (not_lt.mpr h)]
  · intro p
    constructor
    · intro h; simp [projectIndexEntry, if_pos h]
    · intro h; simp [projectIndexEntry, if_neg (not_lt.mpr h)]
  · intro now ds ps c e hc he
    rw [updateFilesystemIndex_entries] at hc
    have hpair := entry_source hc he
    rcases mem_fsPairs.mp hpair with ⟨d, hd, _, rfl⟩ | ⟨p, hp, _, rfl⟩
    · exact Or.inl ⟨d, hd, rfl⟩
    · exact Or.inr ⟨p, hp, rfl⟩
  · intro now ps c e hc he
    rw [updateTopicIndex_entries] at hc
    have hpair := entry_source hc he
    rcases mem_topicPairs.mp hpair with ⟨p, hp, _, rfl⟩
    exact ⟨p, hp, rfl⟩

/-- C5 witness: a concrete 101-character description is truncated. -/
theorem C5_witness :
    longDescDataset.description.length > 100 ∧
      (datasetIndexEntry longDescDataset).description =
        some (longDescDataset.description.take 100 ++ "...") :=
  ⟨by decide, (C5_description_truncation.1 longDescDataset).1 (by decide)⟩

/-- C7: for every entity kind (Dataset, Project, IndexEntry, IndexCategory,
Index), deserializing the serialized JSON form of any record — optional
fields absent or present — yields the original record. -/
theorem C7_serialization_roundtrip :
    (∀ (now : DateTime) (d : DatasetMetadata),
      parseDataset now (serializeDataset d) = .ok d)
    ∧ (∀ (now : DateTime) (p : ProjectMetadata),
      parseProject now (serializeProject p) = .ok p)
    ∧ (∀ e : IndexEntry, parseIndexEntry (serializeIndexEntry e) = .ok e)
    ∧ (∀ c : IndexCategory, parseIndexCategory (serializeIndexCategory c) = .ok c)
    ∧ (∀ (now : DateTime) (i : IndexMetadata),
      parseIndex now (serializeIndex i) = .ok i) :=
  ⟨parse_serialize_dataset, parse_serialize_project, parse_serialize_indexEntry,
    parse_serialize_indexCategory, parse_serialize_index⟩

/-- C10: every generated slug consists only of lowercase letters, digits
and hyphens, has no leading or trailing hyphen, has no two consecutive
hyphens, and slug generation is idempotent. -/
theorem C10_slug_properties (name : String) :
    (∀ c ∈ (_generate_slug name).data, isSlugChar c = true)
    ∧ (_generate_slug name).data.head? ≠ some '-'
    ∧ (_generate_slug name).data.getLast? ≠ some '-'
    ∧ List.Chain' (fun a b => ¬(a = '-' ∧ b = '-')) (_generate_slug name).data
    ∧ _generate_slug (_generate_slug name) = _generate_slug name := by
  refine ⟨slug_chars name, ?_, ?_, slug_chain name, slug_idempotent name⟩
  · intro h; exact slug_headQ name '-' h rfl
  · intro h; exact slug_getLastQ name '-' h rfl

/-- C10 witness: concrete evaluation on a name from the test suite. -/
theorem C10_witness :
    'm' ∈ (_generate_slug "My Dataset Name").data ∧
      isSlugChar 'm' = true :=
  ⟨by decide, (C10_slug_properties "My Dataset Name").1 'm' (by decide)⟩

/-- C1 (amended): the grouping key is `"/" + parts[1]` of the pathlib parts
tuple — in which the root `/` of an absolute path is itself the first
element — whenever that tuple has more than one element, and `"/"`
otherwise.  So `"/scratch/lab/data"` groups under `"/scratch"`, but the
absolute single-segment path `"/only-one-segment"` groups under
`"/only-one-segment"`; only the bare root `"/"` (or a one-segment relative
path) groups under `"/"`.  Every record lands in the category of its
derived key. -/
theorem C1_filesystem_grouping (now : DateTime) (ds : List DatasetMetadata)
    (ps : List ProjectMetadata) :
    fsRoot "/scratch/lab/data" = "/scratch"
    ∧ fsRoot "/only-one-segment" = "/only-one-segment"
    ∧ fsRoot "/" = "/"
    ∧ fsRoot "data" = "/"
    ∧ (∀ d ∈ ds, ∃ c ∈ (updateFilesystemIndex now ds ps).entries,
        c.category = fsRoot d.path ∧ datasetIndexEntry d ∈ c.entries)
    ∧ (∀ p ∈ ps, ∃ c ∈ (updateFilesystemIndex now ds ps).entries,
        c.category = fsRoot p.path ∧ projectIndexEntry p ∈ c.entries) := by
  refine ⟨by decide, by decide, by decide, by decide, ?_, ?_⟩
  · intro d hd
    have hpair : (fsRoot d.path, datasetIndexEntry d) ∈ fsPairs ds ps :=
      mem_fsPairs.mpr (Or.inl ⟨d, hd, rfl, rfl⟩)
    rcases entry_mem_of_pair hpair with ⟨es, hfind, he⟩
    refine ⟨{ category := fsRoot d.path, entries := es }, ?_, rfl, he⟩
    rw [updateFilesystemIndex_entries]
    exact cats_of_findGroup hfind
  · intro p hp
    have hpair : (fsRoot p.path, projectIndexEntry p) ∈ fsPairs ds ps :=
      mem_fsPairs.mpr (Or.inr ⟨p, hp, rfl, rfl⟩)
    rcases entry_mem_of_pair hpair with ⟨es, hfind, he⟩
    refine ⟨{ category := fsRoot p.path, entries := es }, ?_, rfl, he⟩
    rw [updateFilesystemIndex_entries]
    exact cats_of_findGroup hfind

/-- C1 counterexample: the claim places `"/only-one-segment"` under `"/"`;
the code derives the key `"/only-one-segment"`, which differs from `"/"`. -/
theorem C1_counterexample :
    fsRoot "/only-one-segment" = "/only-one-segment" ∧
      fsRoot "/only-one-segment" ≠ "/" := by
  constructor <;> decide

/-- C1 witness: concrete instantiation of the membership part. -/
theorem C1_witness :
    sampleDataset ∈ [sampleDataset] ∧
      (∃ c ∈ (updateFilesystemIndex now0 [sampleDataset] []).entries,
        c.category = fsRoot sampleDataset.path ∧
          datasetIndexEntry sampleDataset ∈ c.entries) :=
  ⟨by decide,
    (C1_filesystem_grouping now0 [sampleDataset] []).2.2.2.2.1 sampleDataset (by decide)⟩

/-- C3: in the topic index, a project appears exactly in the categories of
its tags (or exactly in `"Untagged"` when it has no tags) — assuming the
record-store invariant that slugs are unique — and the category keys are
distinct, so a project with N distinct tags appears in exactly N
categories. -/
theorem C3_topic_fanout (now : DateTime) (ps : List ProjectMetadata)
    (p : ProjectMetadata) (hp : p ∈ ps)
    (hnd : (ps.map (fun q => q.slug)).Nodup) :
    (∀ c ∈ (updateTopicIndex now ps).entries,
      (projectIndexEntry p ∈ c.entries ↔
        (c.category ∈ p.tags ∨ (p.tags = [] ∧ c.category = "Untagged"))))
    ∧ (∀ t ∈ p.tags, ∃ c ∈ (updateTopicIndex now ps).entries,
        c.category = t ∧ projectIndexEntry p ∈ c.entries)
    ∧ (p.tags = [] → ∃ c ∈ (updateTopicIndex now ps).entries,
        c.category = "Untagged" ∧ projectIndexEntry p ∈ c.entries)
    ∧ ((updateTopicIndex now ps).entries.map (fun c => c.category)).Nodup := by
  have hmemcat : ∀ (t : String), t ∈ topicsOf p →
      ∃ c ∈ (updateTopicIndex now ps).entries,
        c.category = t ∧ projectIndexEntry p ∈ c.entries := by
    intro t ht
    have hpair : (t, projectIndexEntry p) ∈ topicPairs ps :=
      mem_topicPairs.mpr ⟨p, hp, ht, rfl⟩
    rcases entry_mem_of_pair hpair with ⟨es, hfind, he⟩
    refine ⟨{ category := t, entries := es }, ?_, rfl, he⟩
    rw [updateTopicIndex_entries]
    exact cats_of_findGroup hfind
  refine ⟨?_, ?_, ?_, ?_⟩
  · intro c hc
    rw [updateTopicIndex_entries] at hc
    rw [← mem_topicsOf_iff]
    constructor
    · intro he
      have hpair := entry_source hc he
      rcases mem_topicPairs.mp hpair with ⟨q, hq, hqt, hqe⟩
      have hslug : q.slug = p.slug := projectIndexEntry_slug hqe.symm
      have hqp : q = p := List.inj_on_of_nodup_map hnd hq hp hslug
      rwa [hqp] at hqt
    · intro ht
      have hpair : (c.category, projectIndexEntry p) ∈ topicPairs ps :=
        mem_topicPairs.mpr ⟨p, hp, ht, rfl⟩
      rcases entry_mem_of_pair hpair with ⟨es, hfind, he⟩
      have hes : es = c.entries := by
        have h2 := findGroup_of_mem_cats hc
        rw [hfind] at h2
        exact Option.some_inj.mp h2
      rwa [hes] at he
  · intro t ht
    exact hmemcat t ((mem_topicsOf_iff p t).mpr (Or.inl ht))
  · intro htags
    exact hmemcat "Untagged" ((mem_topicsOf_iff p "Untagged").mpr
      (Or.inr ⟨htags, rfl⟩))
  · rw [updateTopicIndex_entries]
    exact cats_keys_nodup _

/-- C3 witness: a two-project store with tags `["a","b"]` and `[]`. -/
theorem C3_witness :
    (projA ∈ [projA, projB] ∧ (([projA, projB].map (fun q => q.slug)).Nodup)) ∧
      (∃ c ∈ (updateTopicIndex now0 [projA, projB]).entries,
        c.category = "a" ∧ projectIndexEntry projA ∈ c.entries) :=
  ⟨⟨by decide, by decide⟩,
    (C3_topic_fanout now0 [projA, projB] projA (by decide) (by decide)).2.1
      "a" (by decide)⟩

theorem buildKb_ok_spec {now : DateTime} {cwdName : String} {st : KbState}
    {c : BuildCounts} {st' : KbState} {tr : List BuildEvent}
    (h : buildKb now cwdName st = .ok (c, st', tr)) :
    ∃ ds ps,
      st.datasets.mapM (fun f => parseDataset now f.2) = .ok ds ∧
      st.projects.mapM (fun f => parseProject now f.2) = .ok ps ∧
      st'.datasets = st.datasets ∧ st'.projects = st.projects ∧
      st'.config = st.config ∧
      tr = (ds.map (fun d => BuildEvent.writeDatasetPage d.slug)) ++
        (ps.map (fun p => BuildEvent.writeProjectPage p.slug)) ++
        [BuildEvent.writeIndexRecord "by-filesystem",
         BuildEvent.writeIndexRecord "by-topic"] ++
        ((writeFile (writeFile st.indices "by-filesystem"
            (serializeIndex (updateFilesystemIndex now ds ps)))
          "by-topic" (serializeIndex (updateTopicIndex now ps))).map
            (fun f => BuildEvent.writeIndexPage f.1)) ++
        [BuildEvent.writeReadme] := by
  unfold buildKb at h
  cases hds : st.datasets.mapM (fun f => parseDataset now f.2) with
  | error e => rw [hds] at h; simp at h
  | ok ds =>
    rw [hds] at h
    cases hps : st.projects.mapM (fun f => parseProject now f.2) with
    | error e => rw [hps] at h; simp at h
    | ok ps =>
      rw [hps] at h
      simp only at h
      cases hidx : (writeFile (writeFile st.indices "by-filesystem"
          (serializeIndex (updateFilesystemIndex now ds ps)))
          "by-topic" (serializeIndex (updateTopicIndex now ps))).mapM
          (fun f => parseIndex now f.2) with
      | error e => rw [hidx] at h; simp at h
      | ok idxs =>
        rw [hidx] at h
        simp only [Except.ok.injEq, Prod.mk.injEq] at h
        obtain ⟨hc, hst, htr⟩ := h
        exact ⟨ds, ps, rfl, rfl, by rw [← hst], by rw [← hst], by rw [← hst],
          htr.symm⟩

/-- C9: a build never modifies the dataset or project record files (or the
config): after any build attempt — successful or aborted — those partitions
of the store equal their pre-build content; only the index records and the
generated output tree are written. -/
theorem C9_build_frame (now : DateTime) (cwdName : String) (st : KbState) :
    (buildKbFinal now cwdName st).datasets = st.datasets
    ∧ (buildKbFinal now cwdName st).projects = st.projects
    ∧ (buildKbFinal now cwdName st).config = st.config := by
  unfold buildKbFinal
  cases h : buildKb now cwdName st with
  | error e => exact ⟨rfl, rfl, rfl⟩
  | ok res =>
    obtain ⟨c, st', tr⟩ := res
    obtain ⟨ds, ps, _, _, h1, h2, h3, _⟩ := buildKb_ok_spec h
    exact ⟨h1, h2, h3⟩

/-- C2 (amended): in every successful build, both index records are fully
overwritten before any index markdown page or the root README is rendered;
however, the dataset and project markdown pages are rendered *before* the
index builder runs, not after it. -/
theorem C2_render_ordering (now : DateTime) (cwdName : String) (st : KbState)
    (c : BuildCounts) (st' : KbState) (tr : List BuildEvent)
    (h : buildKb now cwdName st = .ok (c, st', tr)) :
    ∃ pre post,
      tr = pre ++ [BuildEvent.writeIndexRecord "by-filesystem",
        BuildEvent.writeIndexRecord "by-topic"] ++ post
      ∧ (∀ ev ∈ pre, (∃ s, ev = BuildEvent.writeDatasetPage s) ∨
          (∃ s, ev = BuildEvent.writeProjectPage s))
      ∧ (∀ ev ∈ post, (∃ s, ev = BuildEvent.writeIndexPage s) ∨
          ev = BuildEvent.writeReadme) := by
  obtain ⟨ds, ps, _, _, _, _, _, htr⟩ := buildKb_ok_spec h
  refine ⟨(ds.map (fun d => BuildEvent.writeDatasetPage d.slug)) ++
      (ps.map (fun p => BuildEvent.writeProjectPage p.slug)),
    ((writeFile (writeFile st.indices "by-filesystem"
        (serializeIndex (updateFilesystemIndex now ds ps)))
      "by-topic" (serializeIndex (updateTopicIndex now ps))).map
        (fun f => BuildEvent.writeIndexPage f.1)) ++
      [BuildEvent.writeReadme], ?_, ?_, ?_⟩
  · rw [htr]; simp [List.append_assoc]
  · intro ev hev
    rcases List.mem_append.mp hev with hev | hev
    · rcases List.mem_map.mp hev with ⟨d, _, rfl⟩
      exact Or.inl ⟨d.slug, rfl⟩
    · rcases List.mem_map.mp hev with ⟨p, _, rfl⟩
      exact Or.inr ⟨p.slug, rfl⟩
  · intro ev hev
    rcases List.mem_append.mp hev with hev | hev
    · rcases List.mem_map.mp hev with ⟨f, _, rfl⟩
      exact Or.inl ⟨f.1, rfl⟩
    · rcases List.mem_singleton.mp hev with rfl
      exact Or.inr rfl

/-- C2 counterexample: over a store with one dataset record, the build's
write trace puts the dataset markdown write before both index-record
writes, so the claimed "index builder completes before any rendered
markdown is written" ordering is violated. -/
theorem C2_counterexample :
    buildTraceOf now0 "kb" oneDatasetStore = some oneDatasetTrace ∧
      ¬ indexRecordsFirst oneDatasetTrace := by
  constructor
  · decide
  · decide

/-- C2 witness: the amended ordering at a concrete one-dataset store. -/
theorem C2_witness :
    ∃ pre post,
      oneDatasetTrace = pre ++ [BuildEvent.writeIndexRecord "by-filesystem",
        BuildEvent.writeIndexRecord "by-topic"] ++ post
      ∧ (∀ ev ∈ pre, (∃ s, ev = BuildEvent.writeDatasetPage s) ∨
          (∃ s, ev = BuildEvent.writeProjectPage s))
      ∧ (∀ ev ∈ post, (∃ s, ev = BuildEvent.writeIndexPage s) ∨
          ev = BuildEvent.writeReadme) :=
  C2_render_ordering now0 "kb" oneDatasetStore
    ⟨1, 0, 2⟩ (buildKbFinal now0 "kb" oneDatasetStore) oneDatasetTrace rfl

/-- C6: if any dataset or project record fails validation, the filesystem
index rebuild aborts with a `ValidationError` and leaves the whole store —
in particular the index file — unchanged; likewise the topic index rebuild
when a project record fails. -/
theorem C6_validation_failfast (now : DateTime) (st : KbState) :
    (((∃ f ∈ st.datasets, isErr (parseDataset now f.2) = true) ∨
      (∃ f ∈ st.projects, isErr (parseProject now f.2) = true)) →
      (∃ e, updateFilesystemIndexRun now st = .error e) ∧
        updateFilesystemIndexFinal now st = st)
    ∧ ((∃ f ∈ st.projects, isErr (parseProject now f.2) = true) →
      (∃ e, updateTopicIndexRun now st = .error e) ∧
        updateTopicIndexFinal now st = st) := by
  constructor
  · intro hbad
    have herr : ∃ e, updateFilesystemIndexRun now st = .error e := by
      rcases hbad with hbad | hbad
      · obtain ⟨e, he⟩ := mapM_error _ _ hbad
        exact ⟨e, by unfold updateFilesystemIndexRun; rw [he]⟩
      · cases hds : st.datasets.mapM (fun f => parseDataset now f.2) with
        | error e => exact ⟨e, by unfold updateFilesystemIndexRun; rw [hds]⟩
        | ok ds =>
          obtain ⟨e, he⟩ := mapM_error _ _ hbad
          exact ⟨e, by unfold updateFilesystemIndexRun; rw [hds, he]⟩
    obtain ⟨e, he⟩ := herr
    exact ⟨⟨e, he⟩, by unfold updateFilesystemIndexFinal; rw [he]⟩
  · intro hbad
    obtain ⟨e, he⟩ := mapM_error _ _ hbad
    have herr : updateTopicIndexRun now st = .error e := by
      unfold updateTopicIndexRun; rw [he]
    exact ⟨⟨e, herr⟩, by unfold updateTopicIndexFinal; rw [herr]⟩

/-- C6 witness: a record missing its required fields aborts the rebuild. -/
theorem C6_witness :
    (∃ f ∈ badRecordStore.datasets, isErr (parseDataset now0 f.2) = true) ∧
      ((∃ e, updateFilesystemIndexRun now0 badRecordStore = .error e) ∧
        updateFilesystemIndexFinal now0 badRecordStore = badRecordStore) :=
  ⟨by decide,
    (C6_validation_failfast now0 badRecordStore).1 (Or.inl (by decide))⟩

/-- C8: with no dataset and no project records (and the two index files in
place, as `init` leaves them), the build succeeds, reports 0 dataset and 0
project documents, and still writes exactly 2 index markdown documents and
1 root document. -/
theorem C8_empty_build (now : DateTime) (cwdName : String) (st : KbState)
    (hds : st.datasets = []) (hps : st.projects = [])
    (hidx : st.indices.map Prod.fst = ["by-filesystem", "by-topic"]) :
    ∃ st' tr,
      buildKb now cwdName st =
        .ok ({ datasets := 0, projects := 0, indices := 2 }, st', tr)
      ∧ (tr.filter (fun ev => ev.isIndexPage)).length = 2
      ∧ (tr.filter (fun ev => ev.isReadme)).length = 1
      ∧ st'.generatedReadme.isSome = true := by
  obtain ⟨cfg, dss, pss, idxs, g1, g2, g3, g4⟩ := st
  simp only at hds hps hidx
  subst hds; subst hps
  rcases idxs with _ | ⟨⟨n1, j1⟩, idxs2⟩
  · simp at hidx
  rcases idxs2 with _ | ⟨⟨n2, j2⟩, idxs3⟩
  · simp at hidx
  rcases idxs3 with _ | ⟨x, idxs4⟩
  case cons => simp at hidx
  simp only [List.map_cons, List.map_nil, List.cons.injEq, and_true] at hidx
  obtain ⟨rfl, rfl⟩ := hidx
  exact ⟨_, _, rfl,
    by simp [writeFile, BuildEvent.isIndexPage, BuildEvent.isReadme, List.filter],
    by simp [writeFile, BuildEvent.isIndexPage, BuildEvent.isReadme, List.filter],
    rfl⟩

/-- C8 witness: the concrete empty store. -/
theorem C8_witness :
    (emptyStore.datasets = [] ∧ emptyStore.projects = [] ∧
      emptyStore.indices.map Prod.fst = ["by-filesystem", "by-topic"]) ∧
    (∃ st' tr,
      buildKb now0 "kb" emptyStore =
        .ok ({ datasets := 0, projects := 0, indices := 2 }, st', tr)
      ∧ (tr.filter (fun ev => ev.isIndexPage)).length = 2
      ∧ (tr.filter (fun ev => ev.isReadme)).length = 1
      ∧ st'.generatedReadme.isSome = true) :=
  ⟨⟨rfl, rfl, by decide⟩, C8_empty_build now0 "kb" emptyStore rfl rfl (by decide)⟩
